import Mathlib

/-!
Shallow embedding of the task-lifecycle core of the youtube_downloader
repository, and proofs of the behavioural claims about it.

The embedded code comes from:
* `src/downloader/cleanup.py` — candidate expansion and best-effort deletion;
* `src/downloader/formatting.py` — the pause/cancel checkpoint wait loop;
* `src/downloader/ytdlp_client.py` — quality-mode setter, the progress-hook
  percentage computation and the terminal-status branch of `download_task`;
* `src/ui/app.py` — `TaskCtx`, `_start_playlist_batch`, `_on_task_finished`
  and `_retry` (the playlist batch scheduler and per-task lifecycle handlers).

Python sets are modelled as `Finset String`, the filesystem as a predicate
`String → Bool` updated on deletion, threads and Tk `after` callbacks as an
explicit step relation on scheduler states, and machine floats as `ℚ`.
-/

namespace YoutubeDownloader

/-! ### String helpers (Python `in` substring test, shared by several models) -/

/-- Helper: `listStartsWith needle hay` holds when the char list `needle` is an initial
segment of `hay` (helper for the Python substring operator `in`). -/
def listStartsWith : List Char → List Char → Bool
  | [], _ => true
  | _ :: _, [] => false
  | a :: as, b :: bs => a = b && listStartsWith as bs

/-- Helper: `listContains needle hay` holds when `needle` occurs contiguously inside `hay`. -/
def listContains (needle : List Char) : List Char → Bool
  | [] => listStartsWith needle []
  | c :: t => listStartsWith needle (c :: t) || listContains needle t

/-- Python's `needle in hay` on strings: contiguous substring test. -/
def strContains (hay needle : String) : Bool :=
  listContains needle.toList hay.toList

/-- Python's `s.lower()`, character by character (the repository only ever
tests lower-cased text against ASCII keywords). -/
def strLower (s : String) : String := String.mk (s.toList.map Char.toLower)

/-- Python's `s.endswith(suffix)`: code-point based suffix test. -/
def strEndsWith (s suffix : String) : Bool :=
  listStartsWith suffix.toList.reverse s.toList.reverse

/-! ### Cleanup engine — `src/downloader/cleanup.py`

```python
def _expand_delete_candidates(paths: Set[str]) -> Set[str]:
    out: Set[str] = set()
    for p in paths:
        if not p:
            continue
        out.add(p)
        out.add(p + ".part")
        out.add(p + ".ytdl")
        if p.endswith(".part"):
            out.add(p[:-5])
    return out
```
The input set is modelled as a list (iteration order of a Python set is
irrelevant here: the function only inserts into `out`). -/

/-- The loop body of `_expand_delete_candidates`: what one seen path `p`
adds to the accumulator `out`. -/
def expandStep (out : Finset String) (p : String) : Finset String :=
  if p = "" then out
  else
    let out1 := insert p out
    let out2 := insert (p ++ ".part") out1
    let out3 := insert (p ++ ".ytdl") out2
    if strEndsWith p ".part" then insert (p.dropRight 5) out3 else out3

def expand_delete_candidates (paths : List String) : Finset String :=
  paths.foldl expandStep ∅

/-- Model of `sorted(candidates)` in `delete_task_files`: the deduplicated candidate
set in ascending string order. -/
def sortedCandidates (seen : List String) : List String :=
  (expand_delete_candidates seen).sort (· ≤ ·)

/-- One refinement of the filesystem: `os.remove p` succeeded, so `p` is gone. -/
def fsRemove (fs : String → Bool) (p : String) : String → Bool :=
  fun q => if q = p then false else fs q

/-- The candidate loop of `delete_task_files`, with the filesystem threaded
through (`fs q = true` ↔ `os.path.isfile(q)`; `delOk p` ↔ `os.remove(p)`
returns instead of raising; `errMsg p` is the text of the raised exception):

```python
removed = 0
errors: List[str] = []
for p in sorted(candidates):
    try:
        if os.path.isfile(p):
            os.remove(p)
            removed += 1
    except Exception as e:
        errors.append(f"{p}: {e}")
return removed, errors
``` -/
def deleteLoop (delOk : String → Bool) (errMsg : String → String) :
    List String → Nat × List String × (String → Bool) → Nat × List String × (String → Bool)
  | [], acc => acc
  | p :: rest, (removed, errors, fs) =>
    if fs p then
      if delOk p then
        deleteLoop delOk errMsg rest (removed + 1, errors, fsRemove fs p)
      else
        deleteLoop delOk errMsg rest (removed, errors ++ [p ++ ": " ++ errMsg p], fs)
    else
      deleteLoop delOk errMsg rest (removed, errors, fs)

/-- Model of `delete_task_files(seen_files)` run against filesystem state `fs`;
returns the removed count, the error list, and the filesystem afterwards. -/
def delete_task_files (fs delOk : String → Bool) (errMsg : String → String)
    (seen : List String) : Nat × List String × (String → Bool) :=
  deleteLoop delOk errMsg (sortedCandidates seen) (0, [], fs)

/-! ### Checkpoint wait loop — `src/downloader/formatting.py`

```python
def wait_if_paused_or_cancelled(pause_flag, cancel_flag) -> None:
    while pause_flag.is_set():
        if cancel_flag.is_set():
            raise RuntimeError("cancelled")
        time.sleep(0.15)
    if cancel_flag.is_set():
        raise RuntimeError("cancelled")
```

Time is discretised into poll steps of one checkpoint interval (the fixed
`time.sleep(0.15)`): `pause t` / `cancel t` give the flag values observed at
poll step `t`.  The result records how the call ended and at which step;
`none` means the given fuel ran out while the loop was still polling. -/

/-- How a `wait_if_paused_or_cancelled` call ended: `cancelledExit` is the
`raise RuntimeError("cancelled")` path, `resumed` the normal return. -/
inductive WaitExit where
  | cancelledExit
  | resumed
deriving DecidableEq, Repr

/-- The wait loop, polling the flags once per checkpoint interval starting
at step `t`, with explicit fuel. -/
def wait_if_paused_or_cancelled (pause cancel : Nat → Bool) :
    Nat → Nat → Option (WaitExit × Nat)
  | 0, _ => none
  | fuel + 1, t =>
    if pause t then
      if cancel t then some (.cancelledExit, t)
      else wait_if_paused_or_cancelled pause cancel fuel (t + 1)
    else
      if cancel t then some (.cancelledExit, t) else some (.resumed, t)

/-! ### Terminal-status branch of `download_task` — `src/downloader/ytdlp_client.py`

```python
try:
    push({"status": "Подготовка", "progress": 0.0})
    with yt_dlp.YoutubeDL(ydl_opts) as ydl:
        ydl.download([info.url])
    if runtime.cancel_flag.is_set():
        push({"status": "Отменено", "progress": 0.0})
    else:
        push({"status": "Готово", "progress": 100.0, ...})
except Exception as e:
    if "cancelled" in str(e).lower() or runtime.cancel_flag.is_set():
        push({"status": "Отменено", "progress": 0.0})
    else:
        push({"status": f"Ошибка: {e}"})
```

The engine call is modelled by its observable result: `Except String Unit`,
where `.error msg` is an exception whose `str(e)` is `msg`; `cancelSet` is
the value of `runtime.cancel_flag.is_set()` at the terminal check.  The
model returns the terminal status string pushed to the channel; totality of
the function is the "never propagates" guarantee. -/

def download_task_terminal_status (engineResult : Except String Unit)
    (cancelSet : Bool) : String :=
  match engineResult with
  | .ok _ => if cancelSet then "Отменено" else "Готово"
  | .error e =>
    if strContains (strLower e) "cancelled" || cancelSet then "Отменено"
    else "Ошибка: " ++ e

/-! ### Progress-hook percentage — `src/downloader/ytdlp_client.py`

```python
total_b = d.get("total_bytes") or d.get("total_bytes_estimate")
downloaded_b = d.get("downloaded_bytes")
pct: Optional[float] = None
if total_b and downloaded_b is not None:
    pct = max(0.0, min(100.0, (downloaded_b / total_b) * 100.0))
```
Byte counts are modelled as `Option ℚ` (`none` = the key is absent/None). -/

/-- Python's `a or b` on optional numbers: `a` when truthy (present and
non-zero), else `b`. -/
def pyOrNum : Option ℚ → Option ℚ → Option ℚ
  | some x, b => if x = 0 then b else some x
  | none, b => b

/-- The `pct` value computed by the `downloading` branch of `progress_hook`
(`none` when `total_b` is falsy or `downloaded_b` is `None`). -/
def progress_hook_pct (totalBytes totalBytesEstimate downloadedBytes : Option ℚ) :
    Option ℚ :=
  match pyOrNum totalBytes totalBytesEstimate, downloadedBytes with
  | some t, some dl => if t = 0 then none else some (max 0 (min 100 (dl / t * 100)))
  | _, _ => none

/-! ### Quality-mode setter — `src/downloader/ytdlp_client.py`

```python
def set_quality_mode(mode: str) -> None:
    global _quality_mode
    allowed = {"audio", "360p", "480p", "720p", "1080p", "max"}
    normalized = str(mode).lower()
    _quality_mode = normalized if normalized in allowed else "1080p"
```
The model returns the value stored into `_quality_mode`. -/

/-- The allowed quality modes. -/
def allowedQualityModes : List String :=
  ["audio", "360p", "480p", "720p", "1080p", "max"]

/-- Model of `set_quality_mode` as a function from the argument to the new value of
the module-global `_quality_mode`. -/
def set_quality_mode (mode : String) : String :=
  let normalized := strLower mode
  if normalized ∈ allowedQualityModes then normalized else "1080p"

/-! ### Task and batch state — `src/ui/app.py`

`VideoInfo` and `TaskRuntime` come from `src/downloader/ytdlp_client.py`,
`TaskCtx` and the `_playlist_batches` records from `src/ui/app.py`.
`threading.Event` flags are modelled as `Bool` (`is_set()`), a thread handle
by the boolean `workerAlive` (`ctx.worker and ctx.worker.is_alive()`), the
Tk row by `hasRow` (`ctx.row is not None`), and the worker's seen-files set
as a `Finset String`. -/

/-- The `VideoInfo` dataclass: the target descriptor of a task. -/
structure VideoInfo where
  url : String
  title : String := "—"
  thumbnail_url : Option String := none
  webpage_url : Option String := none
  format_kind : List (String × String) := []
deriving DecidableEq, Repr

/-- The `TaskRuntime` dataclass: the state shared with the download worker. -/
structure TaskRuntime where
  pause_flag : Bool
  cancel_flag : Bool
  seen_files : Finset String := ∅
deriving DecidableEq

/-- The `TaskCtx` class: the per-task mutable state held by the application. -/
structure TaskCtx where
  task_id : String
  info : VideoInfo
  out_dir : String
  playlist_id : Option String := none
  pause_flag : Bool := false
  cancel_flag : Bool := false
  soft_cancelled : Bool := false
  finished_reported : Bool := false
  runtime : TaskRuntime := { pause_flag := false, cancel_flag := false }
  workerAlive : Bool := false
  hasRow : Bool := true
deriving DecidableEq

/-- One record of the `_playlist_batches` dict (`_enqueue_videos_batched`). -/
structure Batch where
  videos : List VideoInfo
  pos : Nat
  active : Finset String
  batch_size : Nat
  delay_ms : Nat
  out_dir : String
deriving DecidableEq

/-! ### Playlist batch scheduler — `src/ui/app.py`

```python
def _start_playlist_batch(self, playlist_id: str) -> None:
    batch = self._playlist_batches.get(playlist_id)
    if not batch:
        return
    start = batch["pos"]
    videos = batch["videos"]
    if start >= len(videos):
        self._playlist_batches.pop(playlist_id, None)
        return
    chunk = videos[start:start + batch.get("batch_size", 5)]
    batch["pos"] = start + len(chunk)
    for vi in chunk:
        if isinstance(vi, VideoInfo):
            tid = self._create_task_from_videoinfo(vi, batch["out_dir"], playlist_id=playlist_id)
            batch["active"].add(tid)
    if not batch["active"]:
        if batch["pos"] >= len(batch["videos"]):
            self._playlist_batches.pop(playlist_id, None)
        else:
            self.after(batch.get("delay_ms", 1200), lambda: self._start_playlist_batch(playlist_id))
```

The fresh task ids produced by `_create_task_from_videoinfo` are supplied
as the parameter `fresh` (one per chunk element, in order).  The result is
the batch record afterwards (`none` = popped from `_playlist_batches`) and
whether a follow-up `_start_playlist_batch` call was scheduled via
`self.after`. -/

def start_playlist_batch (fresh : List String) (b : Batch) : Option Batch × Bool :=
  if b.videos.length ≤ b.pos then (none, false)
  else
    let chunk := (b.videos.drop b.pos).take b.batch_size
    let b1 : Batch :=
      { b with
        pos := b.pos + chunk.length
        active := b.active ∪ (fresh.take chunk.length).toFinset }
    if b1.active = ∅ then
      if b1.videos.length ≤ b1.pos then (none, false) else (some b1, true)
    else (some b1, false)

/-! ```python
def _on_task_finished(self, task_id, ctx=None) -> None:
    ctx = ctx or self.tasks.get(task_id)
    if not ctx or ctx.finished_reported:
        return
    ctx.finished_reported = True
    playlist_id = ctx.playlist_id
    if not playlist_id:
        return
    batch = self._playlist_batches.get(playlist_id)
    if not batch:
        return
    batch["active"].discard(task_id)
    if batch["active"]:
        return
    if batch["pos"] >= len(batch["videos"]):
        self._playlist_batches.pop(playlist_id, None)
        return
    delay_ms = batch.get("delay_ms", 1200)
    self.after(delay_ms, lambda: self._start_playlist_batch(playlist_id))
```

`batch` is the `_playlist_batches` entry for `ctx.playlist_id` (`none` when
the id is absent or the record was already popped); the result is the
updated context, the updated entry, and whether the next window was
scheduled. -/

def on_task_finished (ctx : TaskCtx) (batch : Option Batch) :
    TaskCtx × Option Batch × Bool :=
  if ctx.finished_reported then (ctx, batch, false)
  else
    let ctx' := { ctx with finished_reported := true }
    match ctx.playlist_id with
    | none => (ctx', batch, false)
    | some _ =>
      match batch with
      | none => (ctx', none, false)
      | some b =>
        let b' := { b with active := b.active.erase ctx.task_id }
        if b'.active ≠ ∅ then (ctx', some b', false)
        else if b'.videos.length ≤ b'.pos then (ctx', none, false)
        else (ctx', some b', true)

/-! ### Retry — `src/ui/app.py`

```python
def _retry(self, task_id: str) -> None:
    ctx = self.tasks.get(task_id)
    if not ctx or not ctx.row:
        return
    if ctx.worker and ctx.worker.is_alive():
        return
    ctx.pause_flag = threading.Event()
    ctx.cancel_flag = threading.Event()
    ctx.runtime = TaskRuntime(pause_flag=ctx.pause_flag, cancel_flag=ctx.cancel_flag)
    ctx.soft_cancelled = False
    ctx.finished_reported = False
    ...
    ctx.worker = threading.Thread(target=dl_worker, daemon=True)
    ctx.worker.start()
```

Result: the context afterwards and whether a new worker thread was started. -/

def retryTask (ctx : TaskCtx) : TaskCtx × Bool :=
  if ctx.hasRow = false then (ctx, false)
  else if ctx.workerAlive then (ctx, false)
  else
    ({ ctx with
        pause_flag := false
        cancel_flag := false
        runtime := { pause_flag := false, cancel_flag := false, seen_files := ∅ }
        soft_cancelled := false
        finished_reported := false
        workerAlive := true }, true)

/-! ### Scheduler step relation

A scheduler state for one batch is `(entry, pending)`: the current
`_playlist_batches` entry for its id (`none` = popped) and whether a
`_start_playlist_batch` call is outstanding (either the synchronous call in
`_enqueue_videos_batched` or one scheduled through `self.after`).  All
transitions run on the single Tk thread:

* `init` — `_enqueue_videos_batched` just stored the fresh record
  (`pos = 0`, empty active set) and is about to call
  `_start_playlist_batch`;
* `fire` — an outstanding `_start_playlist_batch` call executes, with the
  fresh task ids it creates supplied as `fresh`;
* `finish` — `_on_task_finished` runs for a task of this batch whose
  terminal handling has not yet been counted (`finished_reported = false`,
  guaranteed per generation by the guard) and which is still in the active
  set. -/

inductive SchedReach (W d : Nat) (videos : List VideoInfo) (dir : String) :
    Option Batch × Bool → Prop
  | init :
      SchedReach W d videos dir
        (some { videos := videos, pos := 0, active := ∅, batch_size := W,
                delay_ms := d, out_dir := dir }, true)
  | fire (b : Batch) (fresh : List String) :
      SchedReach W d videos dir (some b, true) →
      SchedReach W d videos dir (start_playlist_batch fresh b)
  | finish (b : Batch) (pend : Bool) (ctx : TaskCtx) :
      SchedReach W d videos dir (some b, pend) →
      ctx.finished_reported = false →
      ctx.playlist_id.isSome →
      ctx.task_id ∈ b.active →
      SchedReach W d videos dir
        ((on_task_finished ctx (some b)).2.1,
         pend || (on_task_finished ctx (some b)).2.2)

/-- The scheduler invariant: while the batch record is alive, its window
size is the configured `W`, its active-set never holds more than `W` task
ids, and an outstanding `_start_playlist_batch` call implies the active-set
is empty (every task of the previously released window is terminal). -/
def SchedInv (W : Nat) (s : Option Batch × Bool) : Prop :=
  ∀ b, s.1 = some b →
    b.batch_size = W ∧ b.active.card ≤ W ∧ (s.2 = true → b.active = ∅)

/-! ## Theorems -/

theorem listStartsWith_refl (l : List Char) : listStartsWith l l = true := by
  induction l with
  | nil => rfl
  | cons a t ih => simp [listStartsWith, ih]

theorem listContains_of_suffix (xs needle : List Char) :
    listContains needle (xs ++ needle) = true := by
  induction xs with
  | nil =>
    cases needle with
    | nil => rfl
    | cons c t => simp [listContains, listStartsWith_refl]
  | cons c t ih => simp [listContains, ih]

/-- Appending the needle on the right always yields a containing string. -/
theorem strContains_append_right (a b : String) :
    strContains (a ++ b) b = true := by
  have h : (a ++ b).toList = a.toList ++ b.toList := by
    simp [String.toList, String.data_append]
  simp [strContains, h, listContains_of_suffix]

/-! ### Cleanup-engine lemmas -/

theorem mem_expandStep_of_mem (acc : Finset String) (p x : String) (hx : x ∈ acc) :
    x ∈ expandStep acc p := by
  unfold expandStep
  by_cases h0 : p = ""
  · simp [h0, hx]
  · by_cases h1 : strEndsWith p ".part" <;> simp [h0, h1, hx, Finset.mem_insert]

theorem mem_foldl_expandStep (paths : List String) (acc : Finset String)
    (x : String) (hx : x ∈ acc) : x ∈ paths.foldl expandStep acc := by
  induction paths generalizing acc with
  | nil => simpa using hx
  | cons p rest ih =>
    simp only [List.foldl_cons]
    exact ih _ (mem_expandStep_of_mem _ _ _ hx)

theorem mem_expandStep_self (acc : Finset String) (p : String) (hp : p ≠ "") :
    p ∈ expandStep acc p ∧ p ++ ".part" ∈ expandStep acc p ∧
    p ++ ".ytdl" ∈ expandStep acc p ∧
    (strEndsWith p ".part" = true → p.dropRight 5 ∈ expandStep acc p) := by
  unfold expandStep
  by_cases h1 : strEndsWith p ".part" <;> simp [hp, h1, Finset.mem_insert]

/-- Every non-empty seen path contributes all four of its candidate names to
the fold, whatever accumulator the fold starts from. -/
theorem expand_contributes (l : List String) (acc : Finset String) (p : String)
    (hmem : p ∈ l) (hp : p ≠ "") :
    p ∈ l.foldl expandStep acc ∧ p ++ ".part" ∈ l.foldl expandStep acc ∧
    p ++ ".ytdl" ∈ l.foldl expandStep acc ∧
    (strEndsWith p ".part" = true → p.dropRight 5 ∈ l.foldl expandStep acc) := by
  induction l generalizing acc with
  | nil => cases hmem
  | cons q rest ih =>
    rcases List.mem_cons.mp hmem with h | h
    · subst h
      simp only [List.foldl_cons]
      obtain ⟨h1, h2, h3, h4⟩ := mem_expandStep_self acc p hp
      exact ⟨mem_foldl_expandStep _ _ _ h1, mem_foldl_expandStep _ _ _ h2,
        mem_foldl_expandStep _ _ _ h3,
        fun he => mem_foldl_expandStep _ _ _ (h4 he)⟩
    · simpa only [List.foldl_cons] using ih _ h

/-- Full characterisation of the deletion loop over a duplicate-free
candidate list: the removed count, the error list, and the resulting
filesystem, in terms of the starting filesystem. -/
theorem deleteLoop_spec (delOk : String → Bool) (errMsg : String → String) :
    ∀ (l : List String), l.Nodup → ∀ (r : Nat) (e : List String) (fs : String → Bool),
      (deleteLoop delOk errMsg l (r, e, fs)).1 =
          r + (l.filter (fun p => fs p && delOk p)).length ∧
      (deleteLoop delOk errMsg l (r, e, fs)).2.1 =
          e ++ (l.filter (fun p => fs p && !delOk p)).map (fun p => p ++ ": " ++ errMsg p) ∧
      ∀ q, (deleteLoop delOk errMsg l (r, e, fs)).2.2 q =
          if q ∈ l ∧ fs q = true ∧ delOk q = true then false else fs q := by
  intro l
  induction l with
  | nil =>
    intro _ r e fs
    refine ⟨by simp [deleteLoop], by simp [deleteLoop], fun q => by simp [deleteLoop]⟩
  | cons p rest ih =>
    intro hnd r e fs
    have hp : p ∉ rest := (List.nodup_cons.mp hnd).1
    have hrest : rest.Nodup := (List.nodup_cons.mp hnd).2
    by_cases hfs : fs p = true
    · by_cases hok : delOk p = true
      · -- file exists and removal succeeds
        have hstep : deleteLoop delOk errMsg (p :: rest) (r, e, fs) =
            deleteLoop delOk errMsg rest (r + 1, e, fsRemove fs p) := by
          simp [deleteLoop, hfs, hok]
        obtain ⟨hc, he, hf⟩ := ih hrest (r + 1) e (fsRemove fs p)
        have hagree : ∀ x ∈ rest, fsRemove fs p x = fs x := by
          intro x hx
          have hxp : x ≠ p := fun hxp => hp (hxp ▸ hx)
          simp [fsRemove, hxp]
        have hfilter1 : rest.filter (fun q => fsRemove fs p q && delOk q)
            = rest.filter (fun q => fs q && delOk q) :=
          List.filter_congr (fun x hx => by rw [hagree x hx])
        have hfilter2 : rest.filter (fun q => fsRemove fs p q && !delOk q)
            = rest.filter (fun q => fs q && !delOk q) :=
          List.filter_congr (fun x hx => by rw [hagree x hx])
        refine ⟨?_, ?_, ?_⟩
        · rw [hstep, hc, hfilter1, List.filter_cons_of_pos (by simp [hfs, hok])]
          simp [Nat.add_comm, Nat.add_assoc, Nat.add_left_comm]
        · rw [hstep, he, hfilter2, List.filter_cons_of_neg (by simp [hok])]
        · intro q
          rw [hstep, hf q]
          by_cases hq : q = p
          · subst hq
            simp [fsRemove, hfs, hok]
          · simp only [fsRemove, if_neg hq, List.mem_cons]
            have : (q = p ∨ q ∈ rest) ↔ q ∈ rest := by
              constructor
              · rintro (h | h)
                · exact absurd h hq
                · exact h
              · exact Or.inr
            simp only [this]
      · -- file exists, removal raises
        have hstep : deleteLoop delOk errMsg (p :: rest) (r, e, fs) =
            deleteLoop delOk errMsg rest (r, e ++ [p ++ ": " ++ errMsg p], fs) := by
          simp [deleteLoop, hfs, hok]
        obtain ⟨hc, he, hf⟩ := ih hrest r (e ++ [p ++ ": " ++ errMsg p]) fs
        refine ⟨?_, ?_, ?_⟩
        · rw [hstep, hc, List.filter_cons_of_neg (by simp [hok])]
        · rw [hstep, he, List.filter_cons_of_pos (by simp [hfs, hok]), List.map_cons,
            List.append_assoc]
          rfl
        · intro q
          rw [hstep, hf q]
          by_cases hq : q = p
          · subst hq
            have hnr : q ∉ rest := hp
            simp [hnr, hok, hfs]
          · simp only [List.mem_cons]
            have : (q = p ∨ q ∈ rest) ↔ q ∈ rest := by
              constructor
              · rintro (h | h)
                · exact absurd h hq
                · exact h
              · exact Or.inr
            simp only [this]
    · -- file does not exist: silently skipped
      have hstep : deleteLoop delOk errMsg (p :: rest) (r, e, fs) =
          deleteLoop delOk errMsg rest (r, e, fs) := by
        simp [deleteLoop, hfs]
      obtain ⟨hc, he, hf⟩ := ih hrest r e fs
      refine ⟨?_, ?_, ?_⟩
      · rw [hstep, hc, List.filter_cons_of_neg (by simp [hfs])]
      · rw [hstep, he, List.filter_cons_of_neg (by simp [hfs])]
      · intro q
        rw [hstep, hf q]
        by_cases hq : q = p
        · subst hq
          simp [hfs]
        · simp only [List.mem_cons]
          have : (q = p ∨ q ∈ rest) ↔ q ∈ rest := by
            constructor
            · rintro (h | h)
              · exact absurd h hq
              · exact h
            · exact Or.inr
          simp only [this]

/-! ### Claim theorems for the cleanup engine -/

/-- C6: the cleanup candidate expansion is complete.  For the seen path
`"video.mp4.part"` the candidate set includes `"video.mp4"`,
`"video.mp4.part"` and `"video.mp4.part.ytdl"`; for `"video.mp4"` it
includes `"video.mp4"`, `"video.mp4.part"` and `"video.mp4.ytdl"`; and in
general every non-empty seen path contributes itself, itself plus the
partial suffix `".part"`, itself plus the sidecar suffix `".ytdl"`, and —
when it ends with the partial suffix — the suffix-stripped name. -/
theorem C6_expansion_complete :
    ("video.mp4" ∈ expand_delete_candidates ["video.mp4.part"] ∧
     "video.mp4.part" ∈ expand_delete_candidates ["video.mp4.part"] ∧
     "video.mp4.part.ytdl" ∈ expand_delete_candidates ["video.mp4.part"]) ∧
    ("video.mp4" ∈ expand_delete_candidates ["video.mp4"] ∧
     "video.mp4.part" ∈ expand_delete_candidates ["video.mp4"] ∧
     "video.mp4.ytdl" ∈ expand_delete_candidates ["video.mp4"]) ∧
    (∀ (paths : List String) (p : String), p ∈ paths → p ≠ "" →
      p ∈ expand_delete_candidates paths ∧
      p ++ ".part" ∈ expand_delete_candidates paths ∧
      p ++ ".ytdl" ∈ expand_delete_candidates paths ∧
      (strEndsWith p ".part" = true →
        p.dropRight 5 ∈ expand_delete_candidates paths)) := by
  have hgen : ∀ (paths : List String) (p : String), p ∈ paths → p ≠ "" →
      p ∈ expand_delete_candidates paths ∧
      p ++ ".part" ∈ expand_delete_candidates paths ∧
      p ++ ".ytdl" ∈ expand_delete_candidates paths ∧
      (strEndsWith p ".part" = true →
        p.dropRight 5 ∈ expand_delete_candidates paths) :=
    fun paths p hmem hp => expand_contributes paths ∅ p hmem hp
  have h1 := hgen ["video.mp4.part"] "video.mp4.part" (by decide) (by decide)
  have h2 := hgen ["video.mp4"] "video.mp4" (by decide) (by decide)
  refine ⟨⟨by simpa using h1.2.2.2 (by decide), h1.1, by simpa using h1.2.2.1⟩,
    ⟨h2.1, by simpa using h2.2.1, by simpa using h2.2.2.1⟩, hgen⟩

/-- Witness for C6 at the concrete path list `["a.part"]`. -/
theorem C6_expansion_complete_witness :
    "a.part" ∈ expand_delete_candidates ["a.part"] ∧
    "a" ∈ expand_delete_candidates ["a.part"] := by
  have h := C6_expansion_complete.2.2 ["a.part"] "a.part" (by decide) (by decide)
  exact ⟨h.1, by simpa using h.2.2.2 (by decide)⟩

/-- C7: `delete_task_files` is total (it never raises: it always returns a
`(count, errors)` pair no matter how the filesystem or `os.remove`
behaves), the count is exactly the number of candidates that existed as
files and were deleted, the error list records exactly one
`"path: message"` string per candidate that existed but whose deletion
failed — so iteration continues past failures — and a candidate that does
not exist as a regular file is silently skipped: neither counted nor
reported. -/
theorem C7_delete_total_and_reports (fs delOk : String → Bool)
    (errMsg : String → String) (seen : List String) :
    (delete_task_files fs delOk errMsg seen).1 =
        ((sortedCandidates seen).filter (fun p => fs p && delOk p)).length ∧
    (delete_task_files fs delOk errMsg seen).2.1 =
        ((sortedCandidates seen).filter (fun p => fs p && !delOk p)).map
          (fun p => p ++ ": " ++ errMsg p) := by
  have h := deleteLoop_spec delOk errMsg (sortedCandidates seen)
    (Finset.sort_nodup _ _) 0 [] fs
  exact ⟨by simpa [delete_task_files] using h.1,
    by simpa [delete_task_files] using h.2.1⟩

/-- After a run in which every attempted deletion succeeds, no candidate of
the same seen set exists any more. -/
theorem delete_task_files_clears (fs delOk : String → Bool)
    (errMsg : String → String) (seen : List String)
    (hok : ∀ p, delOk p = true) :
    ∀ q ∈ sortedCandidates seen,
      (delete_task_files fs delOk errMsg seen).2.2 q = false := by
  intro q hq
  have h := deleteLoop_spec delOk errMsg (sortedCandidates seen)
    (Finset.sort_nodup _ _) 0 [] fs
  have hval : (delete_task_files fs delOk errMsg seen).2.2 q =
      if q ∈ sortedCandidates seen ∧ fs q = true ∧ delOk q = true then false
      else fs q := h.2.2 q
  by_cases hfsq : fs q = true
  · simp [hval, hq, hfsq, hok q]
  · simp only [hval]
    rw [if_neg]
    · exact Bool.not_eq_true (fs q) ▸ Bool.of_not_eq_true hfsq
    · rintro ⟨-, hc, -⟩
      exact hfsq hc

/-- C8: cleanup is idempotent.  If every deletion of the first run
succeeds, a second `delete_task_files` run on the same seen-files set
against the resulting filesystem removes zero files and reports no errors
(files already gone are not errors), for any behaviour of the second run's
`os.remove`. -/
theorem C8_delete_idempotent (fs delOk delOk2 : String → Bool)
    (errMsg errMsg2 : String → String) (seen : List String)
    (hok : ∀ p, delOk p = true) :
    (delete_task_files ((delete_task_files fs delOk errMsg seen).2.2)
        delOk2 errMsg2 seen).1 = 0 ∧
    (delete_task_files ((delete_task_files fs delOk errMsg seen).2.2)
        delOk2 errMsg2 seen).2.1 = [] := by
  have hclear := delete_task_files_clears fs delOk errMsg seen hok
  have h2 := deleteLoop_spec delOk2 errMsg2 (sortedCandidates seen)
    (Finset.sort_nodup _ _) 0 [] ((delete_task_files fs delOk errMsg seen).2.2)
  have hfilter1 : (sortedCandidates seen).filter
      (fun p => (delete_task_files fs delOk errMsg seen).2.2 p && delOk2 p) = [] :=
    List.filter_eq_nil_iff.mpr (fun a ha => by simp [hclear a ha])
  have hfilter2 : (sortedCandidates seen).filter
      (fun p => (delete_task_files fs delOk errMsg seen).2.2 p && !delOk2 p) = [] :=
    List.filter_eq_nil_iff.mpr (fun a ha => by simp [hclear a ha])
  constructor
  · have := h2.1
    simp only [hfilter1] at this
    simpa [delete_task_files] using this
  · have := h2.2.1
    simp only [hfilter2] at this
    simpa [delete_task_files] using this

/-- Witness for C8: one seen file `"a"`, a filesystem on which only the
expanded candidates of `"a"` exist, and an `os.remove` that always
succeeds. -/
theorem C8_delete_idempotent_witness :
    (delete_task_files
        ((delete_task_files (fun p => p == "a") (fun _ => true)
            (fun _ => "locked") ["a"]).2.2)
        (fun _ => true) (fun _ => "locked") ["a"]).1 = 0 ∧
    (delete_task_files
        ((delete_task_files (fun p => p == "a") (fun _ => true)
            (fun _ => "locked") ["a"]).2.2)
        (fun _ => true) (fun _ => "locked") ["a"]).2.1 = [] :=
  C8_delete_idempotent (fun p => p == "a") (fun _ => true) (fun _ => true)
    (fun _ => "locked") (fun _ => "locked") ["a"] (fun _ => rfl)

/-! ### Claim theorems for the worker layer -/

/-- C10: `set_quality_mode` never raises (it is total) and always leaves the
process-wide quality mode inside the allowed set `{audio, 360p, 480p, 720p,
1080p, max}`: the lower-cased input is stored when it lies in the allowed
set, and any other input silently stores `"1080p"`. -/
theorem C10_quality_mode_safe (mode : String) :
    set_quality_mode mode ∈ allowedQualityModes ∧
    (strLower mode ∈ allowedQualityModes → set_quality_mode mode = strLower mode) ∧
    (strLower mode ∉ allowedQualityModes → set_quality_mode mode = "1080p") := by
  by_cases h : strLower mode ∈ allowedQualityModes
  · have hval : set_quality_mode mode = strLower mode := by
      simp [set_quality_mode, h]
    exact ⟨hval ▸ h, fun _ => hval, fun hc => absurd h hc⟩
  · have hval : set_quality_mode mode = "1080p" := by
      simp [set_quality_mode, h]
    refine ⟨?_, fun hc => absurd hc h, fun _ => hval⟩
    rw [hval]
    decide

/-- Witness for C10: an upper-case allowed mode is lower-cased and stored;
an arbitrary string falls back to `"1080p"`. -/
theorem C10_quality_mode_safe_witness :
    set_quality_mode "AUDIO" = "audio" ∧ set_quality_mode "garbage" = "1080p" :=
  ⟨by
    have h := (C10_quality_mode_safe "AUDIO").2.1 (by decide)
    simpa using h,
   (C10_quality_mode_safe "garbage").2.2 (by decide)⟩

/-- C5: classification of an engine exception `e` by `download_task`.  When
the exception text (lower-cased) indicates cancellation, or the task's
cancel flag is set, the worker reports the terminal status `"Отменено"`
(cancelled) — a status that does not even contain the error marker
`"Ошибка"`; for any other exception it reports `"Ошибка: <message>"`, which
contains the exception message.  The status function is total, so the
exception never propagates out of the worker. -/
theorem C5_exception_to_status (e : String) (c : Bool) :
    ((strContains (strLower e) "cancelled" = true ∨ c = true) →
      download_task_terminal_status (.error e) c = "Отменено" ∧
      strContains (download_task_terminal_status (.error e) c) "Ошибка" = false) ∧
    (strContains (strLower e) "cancelled" = false → c = false →
      download_task_terminal_status (.error e) c = "Ошибка: " ++ e ∧
      strContains (download_task_terminal_status (.error e) c) e = true) := by
  constructor
  · intro h
    have hcond : (strContains (strLower e) "cancelled" || c) = true := by
      rcases h with h | h <;> simp [h]
    have hval : download_task_terminal_status (.error e) c = "Отменено" := by
      simp [download_task_terminal_status, hcond]
    exact ⟨hval, by rw [hval]; decide⟩
  · intro h1 h2
    have hval : download_task_terminal_status (.error e) c = "Ошибка: " ++ e := by
      simp [download_task_terminal_status, h1, h2]
    exact ⟨hval, by rw [hval]; exact strContains_append_right _ _⟩

/-- Witness for C5: a cancellation-indicating exception maps to
`"Отменено"`, a plain exception to `"Ошибка: <message>"`. -/
theorem C5_exception_to_status_witness :
    download_task_terminal_status (.error "User Cancelled by request") false
      = "Отменено" ∧
    download_task_terminal_status (.error "boom") false = "Ошибка: boom" := by
  refine ⟨((C5_exception_to_status "User Cancelled by request" false).1
    (Or.inl (by decide))).1, ?_⟩
  have h := ((C5_exception_to_status "boom" false).2 (by decide) rfl).1
  simpa using h

/-- C9: in the `downloading` branch of the progress hook, whenever a
percentage is computed at all (the total byte count is known and non-zero
and a downloaded byte count is present), it lies in `[0, 100]`, so the
progress ratio `pct / 100` lies in `[0, 1]` — also when the reported
downloaded bytes exceed the reported total bytes. -/
theorem C9_progress_clamped (tb tbe db : Option ℚ) (p : ℚ)
    (h : progress_hook_pct tb tbe db = some p) :
    0 ≤ p ∧ p ≤ 100 ∧ 0 ≤ p / 100 ∧ p / 100 ≤ 1 := by
  unfold progress_hook_pct at h
  cases hpy : pyOrNum tb tbe with
  | none => rw [hpy] at h; cases db <;> simp at h
  | some t =>
    rw [hpy] at h
    cases db with
    | none => simp at h
    | some dl =>
      by_cases ht : t = 0
      · simp [ht] at h
      · simp only [ht, if_false] at h
        have hp : p = max 0 (min 100 (dl / t * 100)) := by
          cases h
          rfl
        have h0 : 0 ≤ p := hp ▸ le_max_left _ _
        have h100 : p ≤ 100 := by
          rw [hp]
          exact max_le (by norm_num) (min_le_left _ _)
        refine ⟨h0, h100, by positivity, ?_⟩
        rw [div_le_one (by norm_num)]
        exact h100

/-- Witness for C9: downloaded bytes exceed the total, yet the percentage is
clamped to 100. -/
theorem C9_progress_clamped_witness :
    0 ≤ (100 : ℚ) ∧ (100 : ℚ) ≤ 100 ∧ 0 ≤ (100 : ℚ) / 100 ∧ (100 : ℚ) / 100 ≤ 1 :=
  C9_progress_clamped (some 100) none (some 150) 100
    (by norm_num [progress_hook_pct, pyOrNum])

/-- C4: while the pause flag is set, the checkpoint wait loop re-checks the
cancel flag on every poll iteration (one iteration per fixed 150 ms sleep
interval), so if the cancel flag becomes set at poll step `t0` while the
worker stays paused, a loop that entered at step `s ≤ t0` raises the
cancellation signal exactly at step `t0`: not before the flag write, and at
most one checkpoint interval after it — in particular not unboundedly
later, since fuel `t0 - s + 1` suffices. -/
theorem C4_cancel_observed_within_one_interval
    (pause cancel : Nat → Bool) (s t0 fuel : Nat)
    (hs : s ≤ t0)
    (hpause : ∀ t, t ≤ t0 → pause t = true)
    (hcancel : ∀ t, cancel t = true ↔ t0 ≤ t)
    (hfuel : t0 - s < fuel) :
    wait_if_paused_or_cancelled pause cancel fuel s = some (.cancelledExit, t0) := by
  induction fuel generalizing s with
  | zero => omega
  | succ n ih =>
    by_cases hst : s = t0
    · subst hst
      have hps : pause s = true := hpause s le_rfl
      have hcs : cancel s = true := (hcancel s).mpr le_rfl
      simp [wait_if_paused_or_cancelled, hps, hcs]
    · have hlt : s < t0 := lt_of_le_of_ne hs hst
      have hps : pause s = true := hpause s hs
      have hcs : cancel s = false := by
        have : ¬ t0 ≤ s := by omega
        have hne : ¬ cancel s = true := fun hc => this ((hcancel s).mp hc)
        simpa using hne
      rw [wait_if_paused_or_cancelled, hps, if_pos rfl]
      · simp only [hcs, Bool.false_eq_true, if_false]
        exact ih (s + 1) (by omega) (by omega)

/-- Witness for C4: always-paused flags, cancel set from step 3 on, loop
entered at step 0 with fuel 4 — the loop raises at step 3. -/
theorem C4_cancel_observed_witness :
    wait_if_paused_or_cancelled (fun _ => true) (fun t => decide (3 ≤ t)) 4 0
      = some (.cancelledExit, 3) :=
  C4_cancel_observed_within_one_interval (fun _ => true) (fun t => decide (3 ≤ t))
    0 3 4 (by omega) (fun _ _ => rfl) (fun t => by simp) (by omega)

/-! ### Claim theorems for the scheduler and task lifecycle -/

/-- Every reachable scheduler state satisfies the window invariant. -/
theorem sched_inv_holds (W d : Nat) (videos : List VideoInfo) (dir : String)
    (s : Option Batch × Bool) (h : SchedReach W d videos dir s) : SchedInv W s := by
  induction h with
  | init =>
    intro b hb
    cases hb
    simp
  | fire b fresh hreach ih =>
    have hbs := (ih b rfl).1
    have hact : b.active = ∅ := (ih b rfl).2.2 rfl
    by_cases hlen : b.videos.length ≤ b.pos
    · have hval : start_playlist_batch fresh b = (none, false) := by
        simp [start_playlist_batch, hlen]
      rw [hval]
      intro b' hb'
      simp at hb'
    · have hcard1 : (b.active ∪
          (fresh.take (b.batch_size ⊓ (b.videos.length - b.pos))).toFinset).card ≤ W := by
        rw [hact, Finset.empty_union]
        calc ((fresh.take (b.batch_size ⊓ (b.videos.length - b.pos))).toFinset).card
            ≤ (fresh.take (b.batch_size ⊓ (b.videos.length - b.pos))).length :=
              List.toFinset_card_le _
          _ ≤ b.batch_size ⊓ (b.videos.length - b.pos) := List.length_take_le _ _
          _ ≤ b.batch_size := inf_le_left
          _ = W := hbs
      by_cases hemp : b.active ∪
          (fresh.take (b.batch_size ⊓ (b.videos.length - b.pos))).toFinset = ∅
      · by_cases hlen2 : b.videos.length ≤
            b.pos + b.batch_size ⊓ (b.videos.length - b.pos)
        · have hval : start_playlist_batch fresh b = (none, false) := by
            simp [start_playlist_batch, hlen, hemp, hlen2]
          rw [hval]
          intro b' hb'
          simp at hb'
        · have hval : start_playlist_batch fresh b =
              (some { b with
                  pos := b.pos + b.batch_size ⊓ (b.videos.length - b.pos)
                  active := b.active ∪
                    (fresh.take (b.batch_size ⊓ (b.videos.length - b.pos))).toFinset },
               true) := by
            simp [start_playlist_batch, hlen, hemp, hlen2]
          rw [hval]
          intro b' hb'
          cases hb'
          exact ⟨hbs, hcard1, fun _ => hemp⟩
      · have hval : start_playlist_batch fresh b =
            (some { b with
                pos := b.pos + b.batch_size ⊓ (b.videos.length - b.pos)
                active := b.active ∪
                  (fresh.take (b.batch_size ⊓ (b.videos.length - b.pos))).toFinset },
             false) := by
          simp [start_playlist_batch, hlen, hemp]
        rw [hval]
        intro b' hb'
        cases hb'
        exact ⟨hbs, hcard1, fun hc => by simp at hc⟩
  | finish b pend ctx hreach hfr hpl hmem ih =>
    have hbs := (ih b rfl).1
    have hcard := (ih b rfl).2.1
    have hpendF : pend = false := by
      cases hp : pend
      · rfl
      · have hempty : b.active = ∅ := (ih b rfl).2.2 hp
        rw [hempty] at hmem
        simp at hmem
    obtain ⟨pid, hpid⟩ := Option.isSome_iff_exists.mp hpl
    have hcard' : (b.active.erase ctx.task_id).card ≤ W :=
      le_trans Finset.card_erase_le hcard
    by_cases hne : b.active.erase ctx.task_id = ∅
    · by_cases hlen : b.videos.length ≤ b.pos
      · have hval : on_task_finished ctx (some b) =
            ({ ctx with finished_reported := true }, none, false) := by
          simp [on_task_finished, hfr, hpid, hne, hlen]
        rw [hval]
        intro b2 hb2
        simp at hb2
      · have hval : on_task_finished ctx (some b) =
            ({ ctx with finished_reported := true },
             some { b with active := b.active.erase ctx.task_id }, true) := by
          simp [on_task_finished, hfr, hpid, hne, hlen]
        rw [hval]
        intro b2 hb2
        cases hb2
        exact ⟨hbs, hcard', fun _ => hne⟩
    · have hval : on_task_finished ctx (some b) =
          ({ ctx with finished_reported := true },
           some { b with active := b.active.erase ctx.task_id }, false) := by
        simp [on_task_finished, hfr, hpid, hne]
      rw [hval]
      intro b2 hb2
      cases hb2
      exact ⟨hbs, hcard', fun hc => by simp [hpendF] at hc⟩

/-- C1: in every reachable scheduler state of a playlist batch with window
size `W`, the batch's active-set (tasks released but not yet terminal)
holds at most `W` task ids, and whenever a `_start_playlist_batch` call is
outstanding (`pend = true`) the active-set is empty.  Since the `fire` step
— the only step that releases tasks — consumes exactly such a pending
state, the next window is released only after every task of the previously
released window has reached a terminal state. -/
theorem C1_window_bound (W d : Nat) (videos : List VideoInfo) (dir : String)
    (b : Batch) (pend : Bool)
    (h : SchedReach W d videos dir (some b, pend)) :
    b.active.card ≤ W ∧ (pend = true → b.active = ∅) := by
  obtain ⟨-, hcard, hpend⟩ := sched_inv_holds W d videos dir (some b, pend) h b rfl
  exact ⟨hcard, hpend⟩

/-- Witness for C1: the initial state of a freshly enqueued one-video batch
with the default window size 5 and delay 1200 ms. -/
theorem C1_window_bound_witness :
    ({ videos := [{ url := "https://example.invalid/v" }], pos := 0, active := ∅,
       batch_size := 5, delay_ms := 1200, out_dir := "dl" } : Batch).active.card ≤ 5 ∧
    (true = true →
      ({ videos := [{ url := "https://example.invalid/v" }], pos := 0, active := ∅,
         batch_size := 5, delay_ms := 1200, out_dir := "dl" } : Batch).active = ∅) :=
  C1_window_bound 5 1200 [{ url := "https://example.invalid/v" }] "dl" _ true
    SchedReach.init

/-- C2: the terminal-finish handler leaves `finished_reported` true, does
nothing at all — no context change, no batch-record change, no scheduling —
when `finished_reported` is already true (so a task's completion is counted
against its parent batch at most once per control-flag generation), and an
accepted retry (row present, no live worker) resets `finished_reported` to
false, opening the next generation. -/
theorem C2_finished_reported_once (ctx : TaskCtx) (batch : Option Batch) :
    (on_task_finished ctx batch).1.finished_reported = true ∧
    (ctx.finished_reported = true → on_task_finished ctx batch = (ctx, batch, false)) ∧
    (ctx.hasRow = true → ctx.workerAlive = false →
      (retryTask ctx).1.finished_reported = false) := by
  refine ⟨?_, fun h => by simp [on_task_finished, h], fun h1 h2 => ?_⟩
  · by_cases h : ctx.finished_reported = true
    · simp [on_task_finished, h]
    · have hfr : ctx.finished_reported = false := by simpa using h
      cases hpl : ctx.playlist_id with
      | none => simp [on_task_finished, hfr, hpl]
      | some pid =>
        cases batch with
        | none => simp [on_task_finished, hfr, hpl]
        | some b =>
          by_cases hne : b.active.erase ctx.task_id = ∅
          · by_cases hlen : b.videos.length ≤ b.pos
            · simp [on_task_finished, hfr, hpl, hne, hlen]
            · simp [on_task_finished, hfr, hpl, hne, hlen]
          · simp [on_task_finished, hfr, hpl, hne]
  · simp [retryTask, h1, h2]

/-- Witness for C2: a finished task context; the handler is a no-op on it,
and a retry resets the guard. -/
theorem C2_finished_reported_once_witness :
    on_task_finished
        { task_id := "t1", info := { url := "u" }, out_dir := "d",
          finished_reported := true } none
      = ({ task_id := "t1", info := { url := "u" }, out_dir := "d",
           finished_reported := true }, none, false) ∧
    (retryTask
        { task_id := "t1", info := { url := "u" }, out_dir := "d",
          finished_reported := true }).1.finished_reported = false :=
  ⟨(C2_finished_reported_once
      { task_id := "t1", info := { url := "u" }, out_dir := "d",
        finished_reported := true } none).2.1 rfl,
   (C2_finished_reported_once
      { task_id := "t1", info := { url := "u" }, out_dir := "d",
        finished_reported := true } none).2.2 rfl rfl⟩

/-- C3: at most one live worker thread per task id.  A retry request on a
task whose previous worker thread is still alive is rejected: the context
is returned unchanged and no thread is started.  An accepted retry (row
present, no live worker) starts exactly one new worker and reinitialises
both control flags and the runtime — cleared pause and cancel flags, a
fresh `TaskRuntime` with an empty seen-files set, cleared `soft_cancelled`
and `finished_reported` — while preserving the task id and the target
descriptor. -/
theorem C3_retry_single_worker (ctx : TaskCtx) :
    (ctx.workerAlive = true → retryTask ctx = (ctx, false)) ∧
    (ctx.hasRow = true → ctx.workerAlive = false →
      (retryTask ctx).2 = true ∧
      (retryTask ctx).1.workerAlive = true ∧
      (retryTask ctx).1.pause_flag = false ∧
      (retryTask ctx).1.cancel_flag = false ∧
      (retryTask ctx).1.runtime =
        { pause_flag := false, cancel_flag := false, seen_files := ∅ } ∧
      (retryTask ctx).1.soft_cancelled = false ∧
      (retryTask ctx).1.finished_reported = false ∧
      (retryTask ctx).1.task_id = ctx.task_id ∧
      (retryTask ctx).1.info = ctx.info) := by
  constructor
  · intro h
    by_cases hrow : ctx.hasRow = false <;> simp [retryTask, hrow, h]
  · intro h1 h2
    have hrow : ¬ ctx.hasRow = false := by simp [h1]
    simp [retryTask, hrow, h2]

/-- Witness for C3: a retry on a task with a live worker is a no-op, a
retry on an idle task starts a worker. -/
theorem C3_retry_single_worker_witness :
    retryTask
        { task_id := "t2", info := { url := "u" }, out_dir := "d",
          workerAlive := true }
      = ({ task_id := "t2", info := { url := "u" }, out_dir := "d",
           workerAlive := true }, false) ∧
    (retryTask { task_id := "t3", info := { url := "u" }, out_dir := "d" }).2
      = true :=
  ⟨(C3_retry_single_worker
      { task_id := "t2", info := { url := "u" }, out_dir := "d",
        workerAlive := true }).1 rfl,
   ((C3_retry_single_worker
      { task_id := "t3", info := { url := "u" }, out_dir := "d" }).2 rfl rfl).1⟩

end YoutubeDownloader
